import Mathlib

/-!
# Verification of `bonefish_species_identifier.py`

A shallow embedding, in Lean 4, of the species-identification pipeline in
`bonefish_species_identifier.py`, together with theorems settling the
specification claims about it.

Modelling conventions:
* Python strings (the raw BLAST tabular output) are modelled as `List Char`;
  file names, species labels and file contents written by the pipeline are
  modelled as `String`.
* Python `float` values (percent identities) are modelled as `ℚ`.
* Fallible Python code (exceptions) is modelled with `Except`:
  `parse_blast_result` can raise `IndexError` / `ValueError`, subprocess
  failure (`check=True`) raises `CalledProcessError`.
* The two output files are modelled as the lists of chunks passed to the
  successive `.write(...)` calls; the file contents are their concatenations.
-/

namespace Bonefish

/-- The characters stripped by Python's `str.strip()` (ASCII whitespace;
the model omits the rarely-relevant exotic unicode whitespace). -/
def pyIsSpace (c : Char) : Bool :=
  c = ' ' || c = '\t' || c = '\n' || c = '\r' || c = '\x0b' || c = '\x0c'

/-- Python `s.lstrip()` on `List Char`. -/
def lstrip (s : List Char) : List Char := s.dropWhile pyIsSpace

/-- Python `s.rstrip()` on `List Char`. -/
def rstrip (s : List Char) : List Char :=
  (s.reverse.dropWhile pyIsSpace).reverse

/-- Python `s.strip()` on `List Char`. -/
def strip (s : List Char) : List Char := rstrip (lstrip s)

/-- Python `s.split(sep)` for a one-character separator: splits on every
occurrence of `sep`, keeping empty segments; the result is never empty. -/
def splitOnC (sep : Char) : List Char → List (List Char)
  | [] => [[]]
  | c :: cs =>
    if c = sep then [] :: splitOnC sep cs
    else (c :: (splitOnC sep cs).headI) :: (splitOnC sep cs).tail

/-- Numeric value of a digit run, most significant first. -/
def digitsToNat (ds : List Char) : Nat :=
  ds.foldl (fun a c => 10 * a + (c.toNat - 48)) 0

/-- Model of Python's `float(s)` on standard decimal literals: optional
sign, then an integer part and/or a fractional part (at least one digit
overall), then an optional exponent. Returns `none` exactly when Python's
`float` would raise `ValueError` (the model ignores `inf`/`nan`,
underscore separators and surrounding whitespace, none of which occur in
the aligner's `pident` column). -/
def parseFloat? (s : List Char) : Option ℚ :=
  let sgn : ℤ × List Char :=
    match s with
    | '+' :: t => (1, t)
    | '-' :: t => (-1, t)
    | t => (1, t)
  let intPart := sgn.2.takeWhile Char.isDigit
  let s2 := sgn.2.dropWhile Char.isDigit
  let fracs : List Char × List Char :=
    match s2 with
    | '.' :: t => (t.takeWhile Char.isDigit, t.dropWhile Char.isDigit)
    | t => ([], t)
  if intPart = [] ∧ fracs.1 = [] then none
  else
    let mantNum : ℤ := sgn.1 * (digitsToNat (intPart ++ fracs.1) : ℤ)
    let fl := fracs.1.length
    match fracs.2 with
    | [] => some (Rat.divInt mantNum (10 ^ fl))
    | e :: t =>
      if e = 'e' ∨ e = 'E' then
        let esgn : Bool × List Char :=
          match t with
          | '+' :: u => (true, u)
          | '-' :: u => (false, u)
          | u => (true, u)
        let eds := esgn.2.takeWhile Char.isDigit
        let t2 := esgn.2.dropWhile Char.isDigit
        if eds = [] ∨ t2 ≠ [] then none
        else if esgn.1 then some (Rat.divInt (mantNum * 10 ^ digitsToNat eds) (10 ^ fl))
        else some (Rat.divInt mantNum (10 ^ (fl + digitsToNat eds)))
      else none

/-- The exceptions `parse_blast_result` can raise. -/
inductive ParseErr
  /-- `best_hit[2]` out of range. -/
  | indexError
  /-- `float(best_hit[2])` on a malformed literal. -/
  | valueError
deriving DecidableEq

/-- Embedding of `parse_blast_result` (source lines 50–68):
```
if not blast_result.strip():
    return None, None
best_hit = blast_result.strip().split("\n")[0].split("\t")
return float(best_hit[2]), best_hit[1]
```
An uncaught `IndexError`/`ValueError` is modelled as `Except.error`. -/
def parse_blast_result (blast_result : List Char) :
    Except ParseErr (Option ℚ × Option (List Char)) :=
  if strip blast_result = [] then .ok (none, none)
  else
    let best_hit := splitOnC '\t' ((splitOnC '\n' (strip blast_result)).headI)
    if best_hit.length ≤ 2 then .error .indexError
    else
      match parseFloat? (best_hit.getD 2 []) with
      | none => .error .valueError
      | some q => .ok (some q, some (best_hit.getD 1 []))

/-- Round `q * 1000` to the nearest integer, ties to even — the rounding
of Python's fixed-point format `f"{x:.3f}"` (idealized over ℚ; the
binary-float representation step is not modelled). Computed on the
numerator/denominator: `f = ⌊1000q⌋`, and the fractional remainder
`1000q - f = rem/den` is compared with `1/2` via `2·rem ⋚ den`. -/
def halfEven3 (q : ℚ) : ℤ :=
  let t : ℤ := 1000 * q.num
  let f : ℤ := t.fdiv q.den
  let rem : ℤ := t - f * q.den
  if 2 * rem < (q.den : ℤ) then f
  else if (q.den : ℤ) < 2 * rem then f + 1
  else if f % 2 = 0 then f else f + 1

/-- The three digits after the decimal point, for `m < 1000`. -/
def pad3 (m : Nat) : List Char :=
  [Nat.digitChar (m / 100 % 10), Nat.digitChar (m / 10 % 10), Nat.digitChar (m % 10)]

/-- Model of the f-string conversion `f"{x:.3f}"` applied to a percent
identity: fixed-point decimal with exactly three digits after the point. -/
def fmt3 (q : ℚ) : String :=
  let n := halfEven3 q
  let a := n.natAbs
  (if n < 0 then "-" else "") ++ toString (a / 1000) ++ "." ++ String.mk (pad3 (a % 1000))

/-- One entry of the per-sample `results` dict (source line 135):
species label ↦ `(identity, blast_result)`, in insertion order
(= configuration order of `species_dbs`). -/
abbrev ResultEntry := String × Option ℚ × List Char

/-- The comprehension on source line 138 projected to the entries kept:
`{sp: data for sp, data in results.items() if data[0] is not None}`,
each kept entry carrying its (now known present) identity. -/
def validResults (results : List ResultEntry) : List (String × ℚ × List Char) :=
  results.filterMap (fun p =>
    match p.2.1 with
    | some q => some (p.1, q, p.2.2)
    | none => none)

/-- Python's `max(iterable, key=k)`: fold over the remaining items starting
from the first, replacing the current best exactly when the key is strictly
greater — so the first item attaining the maximum is kept. -/
def pyMax (k : α → ℚ) (v : α) (vs : List α) : α :=
  vs.foldl (fun best y => if k best < k y then y else best) v

/-- The species selection of source lines 138–146: filter out `None`
identities, and if anything remains take
`max(valid_results.items(), key=lambda x: x[1][0])`; returns
`(top_species, top_identity)`, or `(None, None)` when nothing remains
(the branch that records "No Match"). -/
def selectSpecies (results : List ResultEntry) : Option String × Option ℚ :=
  match validResults results with
  | [] => (none, none)
  | v :: vs =>
    let w := pyMax (fun p => p.2.1) v vs
    (some w.1, some w.2.1)

/-! ## The pipeline driver (`main`, source lines 71–163)

The driver is modelled as a pure fold over the directory listing,
parameterized by the external aligner `blast : query → db → Except Unit
raw` (an `Except.error` models `subprocess.run(..., check=True)` raising
`CalledProcessError`). The two output files are lists of written chunks;
`sample_count` is the counter of source lines 106/159. -/

/-- An exception that aborts `main`. -/
inductive PipeErr
  /-- `subprocess.CalledProcessError` from `run_blast` (`check=True`). -/
  | blastFailed
  /-- An exception escaping `parse_blast_result`. -/
  | parseFailed (e : ParseErr)
deriving DecidableEq

/-- Python `s.endswith(suffix)`. -/
def pyEndsWith (s suffix : String) : Bool :=
  suffix.toList.isSuffixOf s.toList

/-- Python `s.startswith(pre)`. -/
def pyStartsWith (s pre : String) : Bool :=
  pre.toList.isPrefixOf s.toList

/-- `os.path.join` for the two-argument uses in this program. -/
def pyJoin (a b : String) : String :=
  if pyStartsWith b "/" then b
  else if a = "" ∨ pyEndsWith a "/" then a ++ b
  else a ++ "/" ++ b

/-- The inner loop of source lines 126–135: for each configured
`(species, db_path)` in order, invoke the aligner on the sample and parse,
storing `results[species] = (identity, blast_result)`. The first raised
exception (aligner failure or parse failure) aborts. -/
def processDbs (blast : String → String → Except Unit (List Char)) (query_file : String) :
    List (String × String) → Except PipeErr (List ResultEntry)
  | [] => .ok []
  | (species, db_path) :: rest =>
    match blast query_file db_path with
    | .error _ => .error .blastFailed
    | .ok blast_result =>
      match parse_blast_result blast_result with
      | .error e => .error (.parseFailed e)
      | .ok (identity, _) =>
        (processDbs blast query_file rest).map (fun rs => (species, identity, blast_result) :: rs)

/-- Title block written to `blast_summary_results.txt` (source line 111). -/
def summaryTitle : String := "BLAST Summary Results\n=====================\n\n"

/-- Column header written to `blast_summary_results.txt` (source line 112). -/
def summaryColumns : String :=
  "Query ID\tSubject ID\t% Identity\tAlignment Length\tMismatches\tGap Openings\tQuery Start\tQuery End\tSubject Start\tSubject End\tE-value\tBit Score\n"

/-- Header written to `species_summary.txt` (source line 115). -/
def speciesHeader : String := "Sample ID\tSpecies Identified\tPercent Identity\n"

/-- One detail section (source line 153):
`f"Results for {fasta_file} ({species}):\n{blast_output}\n"`. -/
def detailChunk (fasta_file species : String) (blast_output : List Char) : String :=
  "Results for " ++ fasta_file ++ " (" ++ species ++ "):\n" ++ String.mk blast_output ++ "\n"

/-- The two open output files and the sample counter. Each `.write(...)`
call appends one chunk; the file on disk is the concatenation. -/
structure St where
  /-- Chunks written to `blast_summary_results.txt` (the detail stream). -/
  summaryChunks : List String
  /-- Chunks written to `species_summary.txt` (the summary stream). -/
  speciesChunks : List String
  /-- The `sample_count` counter. -/
  sample_count : Nat
deriving DecidableEq

/-- The state after the header writes (source lines 111–115). -/
def initSt : St := ⟨[summaryTitle, summaryColumns], [speciesHeader], 0⟩

/-- Source lines 138–159, after the per-database results of one sample have
been collected: either the "No Match" row plus `continue`, or the winning
row, the detail sections for every database, and the counter increment. -/
def stepSample (st : St) (fasta_file : String) (results : List ResultEntry) : St :=
  match selectSpecies results with
  | (some top_species, some top_identity) =>
    { summaryChunks :=
        st.summaryChunks ++ results.map (fun p => detailChunk fasta_file p.1 p.2.2),
      speciesChunks :=
        st.speciesChunks ++
          [fasta_file ++ "\t" ++ top_species ++ "\t" ++ fmt3 top_identity ++ "\n"],
      sample_count := st.sample_count + 1 }
  | _ =>
    { st with
      speciesChunks := st.speciesChunks ++ [fasta_file ++ "\tNo Match\tN/A\n"] }

/-- The outer loop of source lines 118–159 over `os.listdir(fasta_directory)`:
files not ending in `.fa` are skipped; a raised exception aborts the loop,
leaving the chunks written so far. -/
def runFiles (blast : String → String → Except Unit (List Char))
    (species_dbs : List (String × String)) (fasta_directory : String) :
    List String → St → St × Option PipeErr
  | [], st => (st, none)
  | fasta_file :: rest, st =>
    if pyEndsWith fasta_file ".fa" then
      match processDbs blast (pyJoin fasta_directory fasta_file) species_dbs with
      | .error e => (st, some e)
      | .ok results => runFiles blast species_dbs fasta_directory rest (stepSample st fasta_file results)
    else runFiles blast species_dbs fasta_directory rest st

/-- The whole of `main` after argument parsing: header writes then the
sample loop. `species_dbs` is the `dict` of source line 91 as an
association list in insertion order (labels unique per the configuration
invariant). Returns the final file/counter state and the exception that
aborted the run, if any. -/
def runPipeline (blast : String → String → Except Unit (List Char))
    (species_dbs : List (String × String)) (fasta_directory : String)
    (listing : List String) : St × Option PipeErr :=
  runFiles blast species_dbs fasta_directory listing initSt

/-! ## The filesystem model for `run_blast` (source lines 9–47)

`run_blast` makes a fresh named temporary file, lets `blastn -out` write
its tabular output there, reads the file back, deletes it, and returns the
text. The filesystem is an association list `path ↦ contents`; the
external aligner is a function giving the bytes `blastn` writes. -/

/-- A filesystem: file paths with their contents. -/
abbrev FS := List (String × List Char)

/-- Create-or-overwrite a file. -/
def fsWrite (p : String) (c : List Char) (fs : FS) : FS :=
  if fs.any (fun e => e.1 = p) then
    fs.map (fun e => if e.1 = p then (p, c) else e)
  else fs ++ [(p, c)]

/-- Read a file's contents, `none` if absent. -/
def fsRead (p : String) (fs : FS) : Option (List Char) :=
  (fs.find? (fun e => e.1 = p)).map (fun e => e.2)

/-- `os.remove`. -/
def fsRemove (p : String) (fs : FS) : FS :=
  fs.filter (fun e => decide (e.1 ≠ p))

/-- Embedding of `run_blast` on the successful path (the aligner exits 0):
`NamedTemporaryFile(delete=False)` creates `temp_output` empty, `blastn`
writes `aligner query_file db_file` to it, the file is read back in full,
then removed; the text read is returned. -/
def run_blast (aligner : String → String → List Char)
    (query_file db_file temp_output : String) (fs : FS) : FS × Option (List Char) :=
  let fs1 := fsWrite temp_output [] fs
  let fs2 := fsWrite temp_output (aligner query_file db_file) fs1
  let blast_results := fsRead temp_output fs2
  let fs3 := fsRemove temp_output fs2
  (fs3, blast_results)

/-! ## Lemmas about splitting and stripping -/

/-- The first line of a piece of text: everything before the first `'\n'`. -/
def firstLine (l : List Char) : List Char :=
  l.takeWhile (fun c => decide (c ≠ '\n'))

theorem splitOnC_ne_nil (sep : Char) (l : List Char) : splitOnC sep l ≠ [] := by
  cases l with
  | nil => simp [splitOnC]
  | cons c cs => simp only [splitOnC]; split <;> simp

theorem headI_splitOnC (sep : Char) (l : List Char) :
    (splitOnC sep l).headI = l.takeWhile (fun c => decide (c ≠ sep)) := by
  induction l with
  | nil => simp [splitOnC]
  | cons c cs ih =>
    simp only [splitOnC, List.takeWhile]
    by_cases h : c = sep
    · simp [h]
    · simp [h, ih]

theorem length_splitOnC (sep : Char) (l : List Char) :
    (splitOnC sep l).length = l.count sep + 1 := by
  induction l with
  | nil => simp [splitOnC]
  | cons c cs ih =>
    simp only [splitOnC, List.count_cons]
    by_cases h : c = sep
    · simp [h, ih]
    · simp [h, ih]

theorem takeWhile_append_left {p : α → Bool} {l : List α} (m : List α)
    (h : ∃ x ∈ l, p x = false) : (l ++ m).takeWhile p = l.takeWhile p := by
  induction l with
  | nil => rcases h with ⟨x, hx, _⟩; simp at hx
  | cons c cs ih =>
    cases hc : p c with
    | false => simp [List.takeWhile_cons, hc]
    | true =>
      rcases h with ⟨x, hx, hpx⟩
      rcases List.mem_cons.mp hx with rfl | hx'
      · rw [hc] at hpx; cases hpx
      · simp [List.takeWhile_cons, hc, ih ⟨x, hx', hpx⟩]

theorem takeWhile_append_all {p : α → Bool} {l : List α} (m : List α)
    (h : ∀ x ∈ l, p x = true) : (l ++ m).takeWhile p = l ++ m.takeWhile p := by
  induction l with
  | nil => simp
  | cons c cs ih =>
    simp [List.takeWhile_cons, h c (by simp), ih (fun x hx => h x (by simp [hx]))]

theorem takeWhile_eq_self_of_all {p : α → Bool} {l : List α}
    (h : ∀ x ∈ l, p x = true) : l.takeWhile p = l := by
  have := takeWhile_append_all (p := p) (l := l) [] h
  simpa using this

theorem takeWhile_append_stop {p : α → Bool} {a : α} (h : p a = false)
    (t r : List α) : (t ++ a :: r).takeWhile p = t.takeWhile p := by
  induction t with
  | nil => simp [List.takeWhile_cons, h]
  | cons c cs ih =>
    cases hc : p c with
    | false => simp [List.takeWhile_cons, hc]
    | true => simp [List.takeWhile_cons, hc, ih]

theorem dropWhile_append_of_ne_nil {p : α → Bool} {l : List α} (m : List α)
    (h : l.dropWhile p ≠ []) : (l ++ m).dropWhile p = l.dropWhile p ++ m := by
  induction l with
  | nil => simp at h
  | cons c cs ih =>
    rw [List.cons_append]
    cases hc : p c with
    | false =>
      rw [List.dropWhile_cons_of_neg (by simp [hc]), List.dropWhile_cons_of_neg (by simp [hc]),
        List.cons_append]
    | true =>
      rw [List.dropWhile_cons_of_pos hc] at h
      rw [List.dropWhile_cons_of_pos hc, List.dropWhile_cons_of_pos hc]
      exact ih h

theorem dropWhile_append_of_nil {p : α → Bool} {l : List α} (m : List α)
    (h : l.dropWhile p = []) : (l ++ m).dropWhile p = m.dropWhile p := by
  induction l with
  | nil => simp
  | cons c cs ih =>
    rw [List.cons_append]
    cases hc : p c with
    | false =>
      rw [List.dropWhile_cons_of_neg (by simp [hc])] at h
      cases h
    | true =>
      rw [List.dropWhile_cons_of_pos hc] at h
      rw [List.dropWhile_cons_of_pos hc]
      exact ih h

theorem splitOnC_getD_append (sep : Char) (m : List Char) :
    ∀ (l : List Char) (i : Nat), i + 1 ≤ l.count sep →
      (splitOnC sep (l ++ m)).getD i [] = (splitOnC sep l).getD i [] := by
  intro l
  induction l with
  | nil => intro i hi; simp at hi
  | cons c cs ih =>
    intro i hi
    by_cases hc : c = sep
    · subst hc
      cases i with
      | zero => simp [splitOnC]
      | succ j =>
        have hj : j + 1 ≤ cs.count c := by
          have := hi
          simp [List.count_cons] at this
          omega
        simp only [List.cons_append, splitOnC, if_pos rfl, List.getD_cons_succ]
        exact ih j hj
    · have hcount : i + 1 ≤ cs.count sep := by
        have := hi
        simp [List.count_cons, hc] at this
        omega
      have hmem : sep ∈ cs := by
        have : 0 < cs.count sep := by omega
        exact List.count_pos_iff.mp this
      have hhead : (splitOnC sep (cs ++ m)).headI = (splitOnC sep cs).headI := by
        rw [headI_splitOnC, headI_splitOnC]
        exact takeWhile_append_left m ⟨sep, hmem, by simp⟩
      cases i with
      | zero =>
        simp only [List.cons_append, splitOnC, if_neg hc, List.getD_cons_zero,
          List.append_eq, hhead]
      | succ j =>
        simp only [List.cons_append, splitOnC, if_neg hc, List.getD_cons_succ]
        have htail : ∀ (u : List Char) (hu : splitOnC sep u ≠ []),
            (splitOnC sep u).tail.getD j [] = (splitOnC sep u).getD (j + 1) [] := by
          intro u hu
          cases h : splitOnC sep u with
          | nil => exact absurd h hu
          | cons a as => simp
        rw [htail _ (splitOnC_ne_nil sep _), htail _ (splitOnC_ne_nil sep _)]
        exact ih (j + 1) hcount

theorem rstrip_nil : rstrip [] = [] := rfl

theorem exists_rstrip_decomp (l : List Char) :
    ∃ w, l = rstrip l ++ w ∧ ∀ c ∈ w, pyIsSpace c = true := by
  refine ⟨(l.reverse.takeWhile pyIsSpace).reverse, ?_, ?_⟩
  · calc l = l.reverse.reverse := (List.reverse_reverse l).symm
      _ = (l.reverse.takeWhile pyIsSpace ++ l.reverse.dropWhile pyIsSpace).reverse := by
          rw [List.takeWhile_append_dropWhile]
      _ = (l.reverse.dropWhile pyIsSpace).reverse ++ (l.reverse.takeWhile pyIsSpace).reverse := by
          rw [List.reverse_append]
      _ = rstrip l ++ (l.reverse.takeWhile pyIsSpace).reverse := rfl
  · intro c hc
    rw [List.mem_reverse] at hc
    exact List.mem_takeWhile_imp hc

theorem rstrip_append_cases (t r : List Char) :
    (∃ r1, rstrip (t ++ '\n' :: r) = t ++ '\n' :: r1) ∨
      rstrip (t ++ '\n' :: r) = rstrip t := by
  have hrev : (t ++ '\n' :: r).reverse = r.reverse ++ '\n' :: t.reverse := by
    simp
  cases hd : r.reverse.dropWhile pyIsSpace with
  | nil =>
    right
    unfold rstrip
    rw [hrev, dropWhile_append_of_nil _ hd]
    rw [List.dropWhile_cons_of_pos (by simp [pyIsSpace])]
  | cons d ds =>
    left
    refine ⟨(d :: ds).reverse, ?_⟩
    unfold rstrip
    rw [hrev, dropWhile_append_of_ne_nil _ (by simp [hd]), hd]
    simp

theorem firstLine_append_newline (t r : List Char) :
    firstLine (t ++ '\n' :: r) = firstLine t :=
  takeWhile_append_stop (by simp) t r

theorem firstLine_rstrip_append (t r : List Char) :
    ∃ w, firstLine (rstrip (t ++ '\n' :: r)) = firstLine (rstrip t) ++ w := by
  rcases rstrip_append_cases t r with ⟨r1, hA⟩ | hB
  · rw [hA, firstLine_append_newline]
    rcases exists_rstrip_decomp t with ⟨w0, hw0, hws⟩
    by_cases hin : ∃ x ∈ rstrip t, (fun c => decide (c ≠ '\n')) x = false
    · refine ⟨[], ?_⟩
      conv_lhs => rw [hw0]
      rw [List.append_nil, firstLine, firstLine, takeWhile_append_left w0 hin]
    · push_neg at hin
      have hall : ∀ x ∈ rstrip t, (fun c => decide (c ≠ '\n')) x = true := by
        intro x hx
        have := hin x hx
        simpa using this
      refine ⟨w0.takeWhile (fun c => decide (c ≠ '\n')), ?_⟩
      conv_lhs => rw [hw0]
      rw [firstLine, takeWhile_append_all w0 hall, firstLine,
        takeWhile_eq_self_of_all hall]
  · rw [hB]
    exact ⟨[], by simp⟩

theorem strip_eq_nil_of_all {s : List Char} (h : ∀ c ∈ s, pyIsSpace c = true) :
    strip s = [] := by
  have hl : lstrip s = [] := by
    unfold lstrip
    exact List.dropWhile_eq_nil_iff.mpr h
  unfold strip
  rw [hl, rstrip_nil]

theorem lstrip_ne_nil_of_strip {s : List Char} (h : strip s ≠ []) :
    lstrip s ≠ [] := by
  intro hn
  apply h
  unfold strip
  rw [hn, rstrip_nil]

theorem strip_append_newline {s : List Char} (r : List Char) (h : strip s ≠ []) :
    strip (s ++ '\n' :: r) = rstrip (lstrip s ++ '\n' :: r) := by
  have hl := lstrip_ne_nil_of_strip h
  unfold strip lstrip
  rw [dropWhile_append_of_ne_nil _ hl]

/-! ## Lemmas about `pyMax` and `selectSpecies` -/

theorem le_k_pyMax (k : α → ℚ) (v : α) (vs : List α) : k v ≤ k (pyMax k v vs) := by
  induction vs generalizing v with
  | nil => exact le_refl _
  | cons y ys ih =>
    show k v ≤ k (pyMax k (if k v < k y then y else v) ys)
    by_cases h : k v < k y
    · calc k v ≤ k y := le_of_lt h
        _ ≤ k (pyMax k y ys) := by have := ih y; exact this
        _ = k (pyMax k (if k v < k y then y else v) ys) := by rw [if_pos h]
    · calc k v ≤ k (pyMax k v ys) := ih v
        _ = k (pyMax k (if k v < k y then y else v) ys) := by rw [if_neg h]

theorem k_le_pyMax_of_mem (k : α → ℚ) (v : α) (vs : List α) :
    ∀ y ∈ vs, k y ≤ k (pyMax k v vs) := by
  induction vs generalizing v with
  | nil => intro y hy; simp at hy
  | cons z zs ih =>
    intro y hy
    show k y ≤ k (pyMax k (if k v < k z then z else v) zs)
    rcases List.mem_cons.mp hy with rfl | hy'
    · by_cases h : k v < k y
      · rw [if_pos h]; exact le_k_pyMax k y zs
      · rw [if_neg h]
        calc k y ≤ k v := le_of_not_lt h
          _ ≤ k (pyMax k v zs) := le_k_pyMax k v zs
    · exact ih _ y hy'

theorem pyMax_mem (k : α → ℚ) (v : α) (vs : List α) : pyMax k v vs ∈ v :: vs := by
  induction vs generalizing v with
  | nil => simp [pyMax]
  | cons y ys ih =>
    show pyMax k (if k v < k y then y else v) ys ∈ v :: y :: ys
    have step := ih (if k v < k y then y else v)
    rcases List.mem_cons.mp step with heq | hmem
    · rw [heq]
      by_cases h : k v < k y
      · rw [if_pos h]; simp
      · rw [if_neg h]; simp
    · simp [hmem]

/-- Python's `max` keeps the first item attaining the maximum: the first
element of `v :: vs` whose key is at least the maximum is the result
itself. -/
theorem find?_pyMax (k : α → ℚ) (v : α) (vs : List α) :
    (v :: vs).find? (fun y => decide (k (pyMax k v vs) ≤ k y)) = some (pyMax k v vs) := by
  induction vs generalizing v with
  | nil => simp [pyMax]
  | cons y ys ih =>
    have hstep : pyMax k v (y :: ys) = pyMax k (if k v < k y then y else v) ys := rfl
    by_cases h : k v < k y
    · have hy : pyMax k v (y :: ys) = pyMax k y ys := by rw [hstep, if_pos h]
      have hvlt : ¬ k (pyMax k v (y :: ys)) ≤ k v := by
        rw [hy]
        exact not_le.mpr (lt_of_lt_of_le h (le_k_pyMax k y ys))
      rw [List.find?_cons_of_neg _ (by simpa using hvlt), hy]
      exact ih y
    · have hv : pyMax k v (y :: ys) = pyMax k v ys := by rw [hstep, if_neg h]
      have ihv := ih v
      by_cases hle : k (pyMax k v ys) ≤ k v
      · have hfound : (v :: ys).find? (fun z => decide (k (pyMax k v ys) ≤ k z)) = some v := by
          rw [List.find?_cons_of_pos _ (by simpa using hle)]
        have : v = pyMax k v ys := by
          have := ihv
          rw [hfound] at this
          exact Option.some.inj this
        rw [hv, List.find?_cons_of_pos _ (by simpa using hle)]
        rw [← this]
      · have hylt : ¬ k (pyMax k v ys) ≤ k y := by
          intro hcon
          exact hle (hcon.trans (le_of_not_lt h))
        rw [hv, List.find?_cons_of_neg _ (by simpa using hle),
          List.find?_cons_of_neg _ (by simpa using hylt)]
        have := ihv
        rw [List.find?_cons_of_neg _ (by simpa using hle)] at this
        exact this

theorem mem_validResults {rs : List ResultEntry} {sp : String} {q : ℚ} {raw : List Char} :
    (sp, q, raw) ∈ validResults rs ↔ (sp, some q, raw) ∈ rs := by
  constructor
  · intro h
    rcases List.mem_filterMap.mp h with ⟨⟨a, oq, r⟩, ha, hf⟩
    cases oq with
    | none => simp at hf
    | some q0 =>
      simp only [Option.some.injEq] at hf
      obtain ⟨rfl, rfl, rfl⟩ : a = sp ∧ q0 = q ∧ r = raw := by
        have := Prod.mk.injEq .. ▸ hf
        refine ⟨?_, ?_, ?_⟩ <;> simp_all
      exact ha
  · intro h
    exact List.mem_filterMap.mpr ⟨(sp, some q, raw), h, rfl⟩

theorem validResults_eq_nil_iff {rs : List ResultEntry} :
    validResults rs = [] ↔ ∀ p ∈ rs, p.2.1 = none := by
  unfold validResults
  rw [List.filterMap_eq_nil_iff]
  constructor
  · intro h p hp
    have := h p hp
    cases hq : p.2.1 with
    | none => rfl
    | some q => rw [hq] at this; simp at this
  · intro h p hp
    rw [h p hp]

theorem selectSpecies_eq_none_of_all {rs : List ResultEntry}
    (h : ∀ p ∈ rs, p.2.1 = none) : selectSpecies rs = (none, none) := by
  unfold selectSpecies
  rw [validResults_eq_nil_iff.mpr h]

theorem selectSpecies_some_of_any {rs : List ResultEntry}
    (h : ∃ p ∈ rs, p.2.1.isSome) :
    ∃ sp q, selectSpecies rs = (some sp, some q) := by
  rcases h with ⟨⟨a, oq, r⟩, ha, hq⟩
  cases oq with
  | none => simp at hq
  | some q0 =>
    have hmem : (a, q0, r) ∈ validResults rs := mem_validResults.mpr ha
    cases hv : validResults rs with
    | nil => rw [hv] at hmem; simp at hmem
    | cons v vs =>
      refine ⟨(pyMax (fun p => p.2.1) v vs).1, (pyMax (fun p => p.2.1) v vs).2.1, ?_⟩
      unfold selectSpecies
      rw [hv]

/-! ## Lemmas about the filesystem model -/

theorem fsWrite_fresh {p : String} {fs : FS}
    (h : ∀ e ∈ fs, e.1 ≠ p) (c : List Char) : fsWrite p c fs = fs ++ [(p, c)] := by
  have hq : fs.any (fun e => e.1 = p) = false := by
    rw [List.any_eq_false]
    intro e he
    simpa using h e he
  simp [fsWrite, hq]

theorem fsWrite_last {p : String} {fs : FS} (h : ∀ e ∈ fs, e.1 ≠ p)
    (c0 c : List Char) : fsWrite p c (fs ++ [(p, c0)]) = fs ++ [(p, c)] := by
  unfold fsWrite
  rw [if_pos (by simp)]
  rw [List.map_append]
  congr 1
  · conv_rhs => rw [← List.map_id fs]
    apply List.map_congr_left
    intro e he
    rw [if_neg (h e he)]
    rfl
  · simp

theorem fsRead_last {p : String} {fs : FS} (h : ∀ e ∈ fs, e.1 ≠ p) (c : List Char) :
    fsRead p (fs ++ [(p, c)]) = some c := by
  unfold fsRead
  rw [List.find?_append]
  have h1 : fs.find? (fun e => e.1 = p) = none := by
    rw [List.find?_eq_none]
    intro e he
    simpa using h e he
  rw [h1]
  simp

theorem fsRemove_last {p : String} {fs : FS} (h : ∀ e ∈ fs, e.1 ≠ p) (c : List Char) :
    fsRemove p (fs ++ [(p, c)]) = fs := by
  unfold fsRemove
  rw [List.filter_append]
  have h1 : fs.filter (fun e => decide (e.1 ≠ p)) = fs :=
    List.filter_eq_self.mpr (fun e he => by simpa using h e he)
  rw [h1]
  simp

/-! ## Lemmas about the pipeline driver -/

/-- The summary row that `main` writes for a sample whose collected
per-database results are `rs` (either branch of source lines 141–149). -/
def speciesRowOfResults (fasta_file : String) (rs : List ResultEntry) : String :=
  match selectSpecies rs with
  | (some top_species, some top_identity) =>
    fasta_file ++ "\t" ++ top_species ++ "\t" ++ fmt3 top_identity ++ "\n"
  | _ => fasta_file ++ "\tNo Match\tN/A\n"

/-- The summary row a given sample file ends up with (only meaningful when
its processing does not raise). -/
def speciesRowOf (blast : String → String → Except Unit (List Char))
    (species_dbs : List (String × String)) (fasta_directory fasta_file : String) : String :=
  match processDbs blast (pyJoin fasta_directory fasta_file) species_dbs with
  | .ok rs => speciesRowOfResults fasta_file rs
  | .error _ => ""

/-- Whether a sample yields at least one database hit (identity present). -/
def sampleHasHit (blast : String → String → Except Unit (List Char))
    (species_dbs : List (String × String)) (fasta_directory fasta_file : String) : Bool :=
  match processDbs blast (pyJoin fasta_directory fasta_file) species_dbs with
  | .ok rs => rs.any (fun p => p.2.1.isSome)
  | .error _ => false

theorem selectSpecies_cases (rs : List ResultEntry) :
    (selectSpecies rs = (none, none) ∧ rs.any (fun p => p.2.1.isSome) = false) ∨
      (∃ a b, selectSpecies rs = (some a, some b) ∧ rs.any (fun p => p.2.1.isSome) = true) := by
  cases hv : validResults rs with
  | nil =>
    left
    have hall := validResults_eq_nil_iff.mp hv
    constructor
    · exact selectSpecies_eq_none_of_all hall
    · rw [List.any_eq_false]
      intro p hp
      rw [hall p hp]
      simp
  | cons v vs =>
    right
    have hmem : (v.1, v.2.1, v.2.2) ∈ validResults rs := by rw [hv]; simp
    have hrs : (v.1, some v.2.1, v.2.2) ∈ rs := mem_validResults.mp hmem
    refine ⟨(pyMax (fun p => p.2.1) v vs).1, (pyMax (fun p => p.2.1) v vs).2.1, ?_, ?_⟩
    · unfold selectSpecies
      rw [hv]
    · rw [List.any_eq_true]
      exact ⟨(v.1, some v.2.1, v.2.2), hrs, by simp⟩

theorem stepSample_summary (st : St) (f : String) (rs : List ResultEntry) :
    ∃ u, (stepSample st f rs).summaryChunks = st.summaryChunks ++ u := by
  rcases selectSpecies_cases rs with ⟨h, _⟩ | ⟨a, b, h, _⟩
  · exact ⟨[], by simp [stepSample, h]⟩
  · exact ⟨rs.map (fun p => detailChunk f p.1 p.2.2), by simp [stepSample, h]⟩

theorem stepSample_species (st : St) (f : String) (rs : List ResultEntry) :
    (stepSample st f rs).speciesChunks = st.speciesChunks ++ [speciesRowOfResults f rs] := by
  rcases selectSpecies_cases rs with ⟨h, _⟩ | ⟨a, b, h, _⟩
  · simp [stepSample, h, speciesRowOfResults]
  · simp [stepSample, h, speciesRowOfResults]

theorem stepSample_count (st : St) (f : String) (rs : List ResultEntry) :
    (stepSample st f rs).sample_count =
      st.sample_count + (if rs.any (fun p => p.2.1.isSome) then 1 else 0) := by
  rcases selectSpecies_cases rs with ⟨h, hany⟩ | ⟨a, b, h, hany⟩
  · simp [stepSample, h, hany]
  · simp [stepSample, h, hany]

theorem processDbs_append (blast : String → String → Except Unit (List Char))
    (q : String) (l1 l2 : List (String × String)) :
    processDbs blast q (l1 ++ l2) =
      match processDbs blast q l1 with
      | .error e => .error e
      | .ok rs => (processDbs blast q l2).map (fun rs2 => rs ++ rs2) := by
  induction l1 with
  | nil =>
    cases h2 : processDbs blast q l2 with
    | error e => simp [processDbs, h2, Except.map]
    | ok rs2 => simp [processDbs, h2, Except.map]
  | cons d l1 ih =>
    obtain ⟨sp, db⟩ := d
    cases hb : blast q db with
    | error u => simp [processDbs, hb]
    | ok raw =>
      cases hp : parse_blast_result raw with
      | error e => simp [processDbs, hb, hp]
      | ok pr =>
        obtain ⟨idq, sid⟩ := pr
        cases h1 : processDbs blast q l1 with
        | error e => simp [processDbs, hb, hp, ih, h1, Except.map]
        | ok rs1 =>
          cases h2 : processDbs blast q l2 with
          | error e => simp [processDbs, hb, hp, ih, h1, h2, Except.map]
          | ok rs2 => simp [processDbs, hb, hp, ih, h1, h2, Except.map]

theorem runFiles_append (blast : String → String → Except Unit (List Char))
    (dbs : List (String × String)) (dir : String) (l1 l2 : List String) (st : St) :
    runFiles blast dbs dir (l1 ++ l2) st =
      match runFiles blast dbs dir l1 st with
      | (st1, none) => runFiles blast dbs dir l2 st1
      | (st1, some e) => (st1, some e) := by
  induction l1 generalizing st with
  | nil => simp [runFiles]
  | cons f fs ih =>
    simp only [List.cons_append, runFiles]
    by_cases hfa : pyEndsWith f ".fa"
    · rw [if_pos hfa, if_pos hfa]
      cases hp : processDbs blast (pyJoin dir f) dbs with
      | error e => rfl
      | ok rs => exact ih (stepSample st f rs)
    · rw [if_neg hfa, if_neg hfa]
      exact ih st

theorem runFiles_summary_mono (blast : String → String → Except Unit (List Char))
    (dbs : List (String × String)) (dir : String) :
    ∀ (l : List String) (st : St),
      ∃ t, ((runFiles blast dbs dir l st).1).summaryChunks = st.summaryChunks ++ t := by
  intro l
  induction l with
  | nil => intro st; exact ⟨[], by simp [runFiles]⟩
  | cons f fs ih =>
    intro st
    simp only [runFiles]
    by_cases hfa : pyEndsWith f ".fa"
    · rw [if_pos hfa]
      cases hp : processDbs blast (pyJoin dir f) dbs with
      | error e => exact ⟨[], by simp⟩
      | ok rs =>
        rcases stepSample_summary st f rs with ⟨u, hu⟩
        rcases ih (stepSample st f rs) with ⟨t1, ht1⟩
        exact ⟨u ++ t1, by rw [ht1, hu, List.append_assoc]⟩
    · rw [if_neg hfa]
      exact ih st

theorem runFiles_species (blast : String → String → Except Unit (List Char))
    (dbs : List (String × String)) (dir : String) :
    ∀ (l : List String) (st st' : St), runFiles blast dbs dir l st = (st', none) →
      st'.speciesChunks =
        st.speciesChunks ++
          (l.filter (fun f => pyEndsWith f ".fa")).map (speciesRowOf blast dbs dir) := by
  intro l
  induction l with
  | nil =>
    intro st st' h
    simp only [runFiles] at h
    obtain ⟨rfl, -⟩ : st = st' ∧ True := by
      refine ⟨?_, trivial⟩
      exact congrArg Prod.fst h
    simp
  | cons f fs ih =>
    intro st st' h
    simp only [runFiles] at h
    by_cases hfa : pyEndsWith f ".fa"
    · rw [if_pos hfa] at h
      cases hp : processDbs blast (pyJoin dir f) dbs with
      | error e => rw [hp] at h; simp at h
      | ok rs =>
        rw [hp] at h
        have := ih (stepSample st f rs) st' h
        rw [this, stepSample_species]
        rw [List.filter_cons_of_pos (by simpa using hfa), List.map_cons,
          List.append_assoc]
        congr 2
        simp [speciesRowOf, hp]
    · rw [if_neg hfa] at h
      have := ih st st' h
      rw [this, List.filter_cons_of_neg (by simpa using hfa)]

theorem runFiles_count (blast : String → String → Except Unit (List Char))
    (dbs : List (String × String)) (dir : String) :
    ∀ (l : List String) (st st' : St), runFiles blast dbs dir l st = (st', none) →
      st'.sample_count =
        st.sample_count +
          (l.filter (fun f => pyEndsWith f ".fa" && sampleHasHit blast dbs dir f)).length := by
  intro l
  induction l with
  | nil =>
    intro st st' h
    simp only [runFiles] at h
    have : st = st' := congrArg Prod.fst h
    rw [← this]
    simp
  | cons f fs ih =>
    intro st st' h
    simp only [runFiles] at h
    by_cases hfa : pyEndsWith f ".fa"
    · rw [if_pos hfa] at h
      cases hp : processDbs blast (pyJoin dir f) dbs with
      | error e => rw [hp] at h; simp at h
      | ok rs =>
        rw [hp] at h
        have hrec := ih (stepSample st f rs) st' h
        rw [hrec, stepSample_count]
        have hhit : sampleHasHit blast dbs dir f = rs.any (fun p => p.2.1.isSome) := by
          simp [sampleHasHit, hp]
        cases hany : rs.any (fun p => p.2.1.isSome) with
        | false =>
          rw [List.filter_cons_of_neg (by simp [hfa, hhit, hany])]
          simp [hany]
        | true =>
          rw [List.filter_cons_of_pos (by simp [hfa, hhit, hany])]
          simp [hany]
          omega
    · rw [if_neg hfa] at h
      have hrec := ih st st' h
      rw [hrec, List.filter_cons_of_neg (by simp [hfa])]

theorem runFiles_ok (blast : String → String → Except Unit (List Char))
    (dbs : List (String × String)) (dir : String) :
    ∀ (l : List String) (st st' : St), runFiles blast dbs dir l st = (st', none) →
      ∀ f ∈ l, pyEndsWith f ".fa" = true →
        ∃ rs, processDbs blast (pyJoin dir f) dbs = .ok rs := by
  intro l
  induction l with
  | nil => intro st st' _ f hf; simp at hf
  | cons g fs ih =>
    intro st st' h f hf hfa
    simp only [runFiles] at h
    rcases List.mem_cons.mp hf with rfl | hf'
    · rw [if_pos hfa] at h
      cases hp : processDbs blast (pyJoin dir f) dbs with
      | error e => rw [hp] at h; simp at h
      | ok rs => exact ⟨rs, rfl⟩
    · by_cases hga : pyEndsWith g ".fa"
      · rw [if_pos hga] at h
        cases hp : processDbs blast (pyJoin dir g) dbs with
        | error e => rw [hp] at h; simp at h
        | ok rs =>
          rw [hp] at h
          exact ih _ _ h f hf' hfa
      · rw [if_neg hga] at h
        exact ih _ _ h f hf' hfa

theorem runFiles_mem_summary (blast : String → String → Except Unit (List Char))
    (dbs : List (String × String)) (dir : String) :
    ∀ (l : List String) (st st' : St), runFiles blast dbs dir l st = (st', none) →
      ∀ f ∈ l, pyEndsWith f ".fa" = true →
        ∀ rs, processDbs blast (pyJoin dir f) dbs = .ok rs →
          rs.any (fun p => p.2.1.isSome) = true →
            ∀ p ∈ rs, detailChunk f p.1 p.2.2 ∈ st'.summaryChunks := by
  intro l
  induction l with
  | nil => intro st st' _ f hf; simp at hf
  | cons g fs ih =>
    intro st st' h f hf hfa rs hrs hany p hp
    simp only [runFiles] at h
    rcases List.mem_cons.mp hf with rfl | hf'
    · rw [if_pos hfa, hrs] at h
      rcases selectSpecies_cases rs with ⟨_, hfalse⟩ | ⟨a, b, hsel, _⟩
      · rw [hfalse] at hany; cases hany
      · have hmem : detailChunk f p.1 p.2.2 ∈ (stepSample st f rs).summaryChunks := by
          simp only [stepSample, hsel]
          rw [List.mem_append]
          right
          exact List.mem_map.mpr ⟨p, hp, rfl⟩
        have h' : runFiles blast dbs dir fs (stepSample st f rs) = (st', none) := h
        rcases runFiles_summary_mono blast dbs dir fs (stepSample st f rs) with ⟨t, ht⟩
        have ht' : st'.summaryChunks = (stepSample st f rs).summaryChunks ++ t := by
          rw [h'] at ht
          exact ht
        rw [ht']
        exact List.mem_append.mpr (Or.inl hmem)
    · by_cases hga : pyEndsWith g ".fa"
      · rw [if_pos hga] at h
        cases hpg : processDbs blast (pyJoin dir g) dbs with
        | error e => rw [hpg] at h; simp at h
        | ok rsg =>
          rw [hpg] at h
          exact ih _ _ h f hf' hfa rs hrs hany p hp
      · rw [if_neg hga] at h
        exact ih _ _ h f hf' hfa rs hrs hany p hp

theorem processDbs_map_fst (blast : String → String → Except Unit (List Char))
    (q : String) :
    ∀ (dbs : List (String × String)) (rs : List ResultEntry),
      processDbs blast q dbs = .ok rs →
        rs.map (fun p => p.1) = dbs.map (fun d => d.1) := by
  intro dbs
  induction dbs with
  | nil =>
    intro rs h
    simp only [processDbs] at h
    cases h
    simp
  | cons d rest ih =>
    intro rs h
    obtain ⟨sp, db⟩ := d
    cases hb : blast q db with
    | error u => simp [processDbs, hb] at h
    | ok raw =>
      cases hp : parse_blast_result raw with
      | error e => simp [processDbs, hb, hp] at h
      | ok pr =>
        obtain ⟨idq, sid⟩ := pr
        cases hrec : processDbs blast q rest with
        | error e => simp [processDbs, hb, hp, hrec, Except.map] at h
        | ok rs1 =>
          simp only [processDbs, hb, hp, hrec, Except.map, Except.ok.injEq] at h
          subst h
          simp only [List.map_cons]
          rw [ih rs1 hrec]

/-! ## The claims -/

/-- Claim C8: for every input string that is empty or consists only of
whitespace, `parse_blast_result` returns NoHit — `(None, None)` — and this
outcome is distinguishable from a hit with identity `0.0`. -/
theorem C8_whitespace_is_nohit (s : List Char) (h : ∀ c ∈ s, pyIsSpace c = true) :
    parse_blast_result s = .ok (none, none) ∧
      ∀ sid : Option (List Char),
        ((none, none) : Option ℚ × Option (List Char)) ≠ (some (0 : ℚ), sid) := by
  constructor
  · unfold parse_blast_result
    rw [if_pos (strip_eq_nil_of_all h)]
  · intro sid
    simp

/-- Witness for C8 at the spec's own examples `""` and `"   \n"`. -/
theorem C8_whitespace_is_nohit_witness :
    (parse_blast_result [] = .ok (none, none) ∧
      ∀ sid : Option (List Char),
        ((none, none) : Option ℚ × Option (List Char)) ≠ (some (0 : ℚ), sid)) ∧
    parse_blast_result [' ', ' ', ' ', '\n'] = .ok (none, none) :=
  ⟨C8_whitespace_is_nohit [] (by decide),
    (C8_whitespace_is_nohit [' ', ' ', ' ', '\n'] (by decide)).1⟩

/-- Claim C3: the species selection of lines 138–146 returns, for any
results containing a non-NoHit entry, an entry whose percent identity is
maximal among the non-NoHit entries; for all-NoHit results it returns
`(None, None)` and the caller records "No Match" for the sample. -/
theorem C3_select_best_species (results : List ResultEntry) :
    ((∀ p ∈ results, p.2.1 = none) → selectSpecies results = (none, none)) ∧
    ((∃ p ∈ results, p.2.1.isSome) →
      ∃ sp q, selectSpecies results = (some sp, some q) ∧
        (∃ raw, (sp, some q, raw) ∈ results) ∧
        ∀ p ∈ results, ∀ v, p.2.1 = some v → v ≤ q) ∧
    (∀ (st : St) (f : String), (∀ p ∈ results, p.2.1 = none) →
      stepSample st f results =
        { st with speciesChunks := st.speciesChunks ++ [f ++ "\tNo Match\tN/A\n"] }) := by
  refine ⟨fun h => selectSpecies_eq_none_of_all h, ?_, ?_⟩
  · intro h
    rcases h with ⟨⟨a, oq, raw0⟩, ha, hq⟩
    cases oq with
    | none => simp at hq
    | some q0 =>
      have hmem0 : (a, q0, raw0) ∈ validResults results := mem_validResults.mpr ha
      cases hv : validResults results with
      | nil => rw [hv] at hmem0; simp at hmem0
      | cons v vs =>
        set k : String × ℚ × List Char → ℚ := fun p => p.2.1 with hk
        set w := pyMax k v vs with hwdef
        have hsel : selectSpecies results = (some w.1, some w.2.1) := by
          unfold selectSpecies
          rw [hv]
        refine ⟨w.1, w.2.1, hsel, ?_, ?_⟩
        · refine ⟨w.2.2, ?_⟩
          have hwmem : w ∈ v :: vs := pyMax_mem k v vs
          rw [← hv] at hwmem
          exact mem_validResults.mp hwmem
        · intro p hp vq hvq
          obtain ⟨b, obq, rb⟩ := p
          simp only at hvq
          subst hvq
          have : (b, vq, rb) ∈ validResults results := mem_validResults.mpr hp
          rw [hv] at this
          rcases List.mem_cons.mp this with rfl | hmemvs
          · exact le_k_pyMax k _ vs
          · exact k_le_pyMax_of_mem k v vs _ hmemvs
  · intro st f h
    simp [stepSample, selectSpecies_eq_none_of_all h]

/-- Witness for C3: an all-NoHit list, and a list with hits whose maximum
identity is attained by the last entry. -/
theorem C3_select_best_species_witness :
    selectSpecies [("s", (none : Option ℚ), ([] : List Char))] = (none, none) ∧
    (∃ sp q,
      selectSpecies [("s", some (5 : ℚ), ['x']), ("t", (none : Option ℚ), ([] : List Char)),
          ("u", some (7 : ℚ), ([] : List Char))] = (some sp, some q) ∧
        (∃ raw, (sp, some q, raw) ∈
          [("s", some (5 : ℚ), ['x']), ("t", (none : Option ℚ), ([] : List Char)),
            ("u", some (7 : ℚ), ([] : List Char))]) ∧
        ∀ p ∈ [("s", some (5 : ℚ), ['x']), ("t", (none : Option ℚ), ([] : List Char)),
            ("u", some (7 : ℚ), ([] : List Char))], ∀ v, p.2.1 = some v → v ≤ q) :=
  ⟨(C3_select_best_species _).1 (by decide), (C3_select_best_species _).2.1 (by decide)⟩

/-- Claim C10: `max` over the results mapping returns the first entry
attaining the maximal identity, so ties are broken in favour of the
database that appears first in configuration order; the results mapping is
in configuration order because the per-sample loop visits `species_dbs`
in insertion order. -/
theorem C10_first_configured_wins (blast : String → String → Except Unit (List Char))
    (q0 : String) (dbs : List (String × String)) (results : List ResultEntry)
    (sp : String) (q : ℚ) :
    (processDbs blast q0 dbs = .ok results →
      results.map (fun p => p.1) = dbs.map (fun d => d.1)) ∧
    (selectSpecies results = (some sp, some q) →
      (∀ p ∈ validResults results, p.2.1 ≤ q) ∧
      ∃ raw, (validResults results).find? (fun p => decide (q ≤ p.2.1)) = some (sp, q, raw)) := by
  constructor
  · exact processDbs_map_fst blast q0 dbs results
  · intro hsel
    cases hv : validResults results with
    | nil =>
      unfold selectSpecies at hsel
      rw [hv] at hsel
      simp at hsel
    | cons v vs =>
      have hw : selectSpecies results =
          (some (pyMax (fun p => p.2.1) v vs).1, some (pyMax (fun p => p.2.1) v vs).2.1) := by
        unfold selectSpecies
        rw [hv]
      rw [hw] at hsel
      have hsp : (pyMax (fun p => p.2.1) v vs).1 = sp := by
        have h1 := congrArg Prod.fst hsel
        simpa using h1
      have hq : (pyMax (fun p => p.2.1) v vs).2.1 = q := by
        have h2 := congrArg Prod.snd hsel
        simpa using h2
      constructor
      · intro p hp
        rcases List.mem_cons.mp hp with rfl | hmem
        · rw [← hq]
          exact le_k_pyMax (fun p => p.2.1) p vs
        · rw [← hq]
          exact k_le_pyMax_of_mem (fun p => p.2.1) v vs p hmem
      · refine ⟨(pyMax (fun p => p.2.1) v vs).2.2, ?_⟩
        have hfind := find?_pyMax (fun p => p.2.1) v vs
        have heta : pyMax (fun p => p.2.1) v vs =
            (sp, q, (pyMax (fun p => p.2.1) v vs).2.2) := by
          rw [← hsp, ← hq]
        calc (v :: vs).find? (fun p => decide (q ≤ p.2.1))
            = (v :: vs).find?
                (fun p => decide ((pyMax (fun p => p.2.1) v vs).2.1 ≤ p.2.1)) := by rw [hq]
          _ = some (pyMax (fun p => p.2.1) v vs) := hfind
          _ = some (sp, q, (pyMax (fun p => p.2.1) v vs).2.2) := by rw [← heta]

/-- Witness for C10: two databases tie at identity 98.5; the first
configured one wins. -/
theorem C10_first_configured_wins_witness :
    (List.map (fun p => p.1)
        [("s1", some (Rat.divInt 197 2), ['q', '\t', 'S', '\t', '9', '8', '.', '5']),
          ("s2", some (Rat.divInt 197 2), ['q', '\t', 'S', '\t', '9', '8', '.', '5'])] =
      List.map (fun d => d.1) [("s1", "d1"), ("s2", "d2")]) ∧
    ((∀ p ∈ validResults
        [("s1", some (Rat.divInt 197 2), ['q', '\t', 'S', '\t', '9', '8', '.', '5']),
          ("s2", some (Rat.divInt 197 2), ['q', '\t', 'S', '\t', '9', '8', '.', '5'])],
        p.2.1 ≤ Rat.divInt 197 2) ∧
      ∃ raw, (validResults
        [("s1", some (Rat.divInt 197 2), ['q', '\t', 'S', '\t', '9', '8', '.', '5']),
          ("s2", some (Rat.divInt 197 2), ['q', '\t', 'S', '\t', '9', '8', '.', '5'])]).find?
          (fun p => decide (Rat.divInt 197 2 ≤ p.2.1)) = some ("s1", Rat.divInt 197 2, raw)) :=
  ⟨(C10_first_configured_wins
      (fun _ _ => .ok ['q', '\t', 'S', '\t', '9', '8', '.', '5']) "q" [("s1", "d1"), ("s2", "d2")]
      _ "s1" (Rat.divInt 197 2)).1 rfl,
    (C10_first_configured_wins
      (fun _ _ => .ok ['q', '\t', 'S', '\t', '9', '8', '.', '5']) "q" [("s1", "d1"), ("s2", "d2")]
      _ "s1" (Rat.divInt 197 2)).2 rfl⟩

/-- Claim C9: `run_blast` writes the aligner's output to a freshly created
temporary file, reads it back in full, and deletes the temporary file
before returning: after the call the filesystem is unchanged, and the
value returned is exactly what the aligner wrote (no caching). -/
theorem C9_run_blast_cleans_up (aligner : String → String → List Char)
    (query_file db_file temp_output : String) (fs : FS)
    (h : ∀ e ∈ fs, e.1 ≠ temp_output) :
    (run_blast aligner query_file db_file temp_output fs).1 = fs ∧
    (run_blast aligner query_file db_file temp_output fs).2 =
      some (aligner query_file db_file) := by
  simp only [run_blast]
  rw [fsWrite_fresh h, fsWrite_last h, fsRead_last h, fsRemove_last h]
  exact ⟨rfl, rfl⟩

/-- Witness for C9 on a one-file filesystem and a fresh temp path. -/
theorem C9_run_blast_cleans_up_witness :
    (run_blast (fun _ _ => ['r']) "q.fa" "db" "tmp1" [("other", ['a'])]).1 =
      [("other", ['a'])] ∧
    (run_blast (fun _ _ => ['r']) "q.fa" "db" "tmp1" [("other", ['a'])]).2 = some ['r'] :=
  C9_run_blast_cleans_up (fun _ _ => ['r']) "q.fa" "db" "tmp1" [("other", ['a'])] (by decide)

/-- Claim C5: a failing aligner invocation propagates uncaught: the run
aborts with the raised error, no later sample or database is processed,
no retry occurs, and the output states hold exactly the rows of the
samples fully completed before the failure. -/
theorem C5_failure_aborts_run (blast : String → String → Except Unit (List Char))
    (dbs : List (String × String)) (dir : String) (pre post : List String) (f : String)
    (st0 : St) (e : PipeErr) (q1 sp db_path : String)
    (dpre dpost : List (String × String)) (rs0 : List ResultEntry)
    (h1 : runFiles blast dbs dir pre initSt = (st0, none))
    (h2 : pyEndsWith f ".fa" = true)
    (h3 : processDbs blast (pyJoin dir f) dbs = .error e)
    (h4 : processDbs blast q1 dpre = .ok rs0)
    (h5 : blast q1 db_path = .error ()) :
    runFiles blast dbs dir (pre ++ f :: post) initSt = (st0, some e) ∧
    processDbs blast q1 (dpre ++ (sp, db_path) :: dpost) = .error .blastFailed := by
  constructor
  · rw [runFiles_append, h1]
    simp [runFiles, h2, h3]
  · rw [processDbs_append, h4]
    simp [processDbs, h5, Except.map]

/-- Witness for C5: sample `a.fa` completes ("No Match"), the second
database of sample `b.fa` fails, `c.fa` is never reached; the final state
is exactly the state after `a.fa`. -/
theorem C5_failure_aborts_run_witness :
    runFiles
        (fun q d => if q = "in/b.fa" ∧ d = "bad" then .error () else .ok [])
        [("s", "good"), ("t", "bad")] "in" (["a.fa"] ++ "b.fa" :: ["c.fa"]) initSt =
      (⟨[summaryTitle, summaryColumns], [speciesHeader, "a.fa\tNo Match\tN/A\n"], 0⟩,
        some .blastFailed) ∧
    processDbs (fun q d => if q = "in/b.fa" ∧ d = "bad" then .error () else .ok [])
        "in/b.fa" ([("s", "good")] ++ ("t", "bad") :: [("u", "good")]) =
      .error .blastFailed :=
  C5_failure_aborts_run
    (fun q d => if q = "in/b.fa" ∧ d = "bad" then .error () else .ok [])
    [("s", "good"), ("t", "bad")] "in" ["a.fa"] ["c.fa"] "b.fa"
    ⟨[summaryTitle, summaryColumns], [speciesHeader, "a.fa\tNo Match\tN/A\n"], 0⟩
    .blastFailed "in/b.fa" "t" "bad" [("s", "good")] [("u", "good")]
    [("s", (none : Option ℚ), ([] : List Char))]
    (by decide) (by decide) rfl rfl rfl

/-- Counterexample to claim C2 as stated: sample `b.fa` gets a summary row
("No Match"), so it reaches the write-result stage, yet the reported
`sample_count` is `0`, not `1` — the `continue` on source line 143 skips
the increment on line 159. -/
theorem C2_count_counterexample :
    (runPipeline (fun _ _ => .ok []) [("s", "d")] "in" ["b.fa"]).2 = none ∧
    (runPipeline (fun _ _ => .ok []) [("s", "d")] "in" ["b.fa"]).1.speciesChunks =
      [speciesHeader, "b.fa\tNo Match\tN/A\n"] ∧
    (runPipeline (fun _ _ => .ok []) [("s", "d")] "in" ["b.fa"]).1.sample_count = 0 :=
  ⟨rfl, rfl, rfl⟩

/-- Claim C2 as amended: the count reported at run end equals the number
of samples with at least one database hit — samples whose summary row is
"No Match" are written but not counted. -/
theorem C2_count_only_hit_samples (blast : String → String → Except Unit (List Char))
    (dbs : List (String × String)) (dir : String) (listing : List String) (st' : St)
    (h : runPipeline blast dbs dir listing = (st', none)) :
    st'.sample_count =
      (listing.filter
        (fun f => pyEndsWith f ".fa" && sampleHasHit blast dbs dir f)).length := by
  have := runFiles_count blast dbs dir listing initSt st' h
  simpa [initSt] using this

/-- Witness for amended C2: `a.fa` hits, `b.fa` gets NoHit everywhere,
`notes.txt` is skipped. -/
theorem C2_count_only_hit_samples_witness :
    (runPipeline
        (fun q _ => if q = "in/a.fa" then .ok ['q', '\t', 'S', '\t', '9', '8', '.', '5']
          else .ok [])
        [("s", "d")] "in" ["a.fa", "b.fa", "notes.txt"]).1.sample_count =
      ((["a.fa", "b.fa", "notes.txt"]).filter
        (fun f => pyEndsWith f ".fa" &&
          sampleHasHit
            (fun q _ => if q = "in/a.fa" then .ok ['q', '\t', 'S', '\t', '9', '8', '.', '5']
              else .ok [])
            [("s", "d")] "in" f)).length :=
  C2_count_only_hit_samples
    (fun q _ => if q = "in/a.fa" then .ok ['q', '\t', 'S', '\t', '9', '8', '.', '5']
      else .ok [])
    [("s", "d")] "in" ["a.fa", "b.fa", "notes.txt"] _ rfl

/-- Claim C6: the summary stream is the fixed header row followed by
exactly one data row per processed (`.fa`) sample, in listing order; each
row is either `sample \t winning-species \t identity-to-3-decimals \n` or
`sample \t No Match \t N/A \n`, and the identity format always carries
exactly three digits after the decimal point. -/
theorem C6_summary_stream (blast : String → String → Except Unit (List Char))
    (dbs : List (String × String)) (dir : String) (listing : List String) (st' : St)
    (h : runPipeline blast dbs dir listing = (st', none)) :
    st'.speciesChunks =
      speciesHeader ::
        (listing.filter (fun f => pyEndsWith f ".fa")).map (speciesRowOf blast dbs dir) ∧
    (∀ r ∈ (listing.filter (fun f => pyEndsWith f ".fa")).map (speciesRowOf blast dbs dir),
      (∃ f sp q, r = f ++ "\t" ++ sp ++ "\t" ++ fmt3 q ++ "\n") ∨
        ∃ f, r = f ++ "\tNo Match\tN/A\n") ∧
    (∀ q : ℚ, ∃ pre m, fmt3 q = pre ++ "." ++ String.mk (pad3 m) ∧
      (String.mk (pad3 m)).length = 3) := by
  refine ⟨?_, ?_, ?_⟩
  · have := runFiles_species blast dbs dir listing initSt st' h
    rw [this]
    rfl
  · intro r hr
    rcases List.mem_map.mp hr with ⟨f, hf, hrf⟩
    obtain ⟨hfin, hffa⟩ := List.mem_filter.mp hf
    rcases runFiles_ok blast dbs dir listing initSt st' h f hfin hffa with ⟨rs, hrs⟩
    rcases selectSpecies_cases rs with ⟨hsel, _⟩ | ⟨a, b, hsel, _⟩
    · right
      refine ⟨f, ?_⟩
      rw [← hrf]
      simp [speciesRowOf, hrs, speciesRowOfResults, hsel]
    · left
      refine ⟨f, a, b, ?_⟩
      rw [← hrf]
      simp [speciesRowOf, hrs, speciesRowOfResults, hsel]
  · intro q
    exact ⟨(if halfEven3 q < 0 then "-" else "") ++ toString ((halfEven3 q).natAbs / 1000),
      (halfEven3 q).natAbs % 1000, rfl, rfl⟩

/-- Witness for C6 on a run with one hit sample, one "No Match" sample
and one skipped non-`.fa` file. -/
theorem C6_summary_stream_witness :
    (runPipeline
        (fun q _ => if q = "in/a.fa" then .ok ['q', '\t', 'S', '\t', '9', '8', '.', '5']
          else .ok [])
        [("s", "d")] "in" ["a.fa", "notes.txt", "b.fa"]).1.speciesChunks =
      speciesHeader ::
        ((["a.fa", "notes.txt", "b.fa"]).filter (fun f => pyEndsWith f ".fa")).map
          (speciesRowOf
            (fun q _ => if q = "in/a.fa" then .ok ['q', '\t', 'S', '\t', '9', '8', '.', '5']
              else .ok [])
            [("s", "d")] "in") :=
  (C6_summary_stream
    (fun q _ => if q = "in/a.fa" then .ok ['q', '\t', 'S', '\t', '9', '8', '.', '5']
      else .ok [])
    [("s", "d")] "in" ["a.fa", "notes.txt", "b.fa"] _ rfl).1

/-- Counterexample to claim C1 as stated: sample `a.fa` is processed
(it carries the `.fa` suffix) and its only database returns NoHit, but the
detail stream holds nothing beyond the two header chunks — no labeled
section for `a.fa` is ever written, because the `continue` on source
line 143 skips the detail-section loop of lines 152–153. -/
theorem C1_detail_counterexample :
    (runPipeline (fun _ _ => .ok []) [("s", "d")] "in" ["a.fa"]).2 = none ∧
    (runPipeline (fun _ _ => .ok []) [("s", "d")] "in" ["a.fa"]).1.speciesChunks =
      [speciesHeader, "a.fa\tNo Match\tN/A\n"] ∧
    (runPipeline (fun _ _ => .ok []) [("s", "d")] "in" ["a.fa"]).1.summaryChunks =
      [summaryTitle, summaryColumns] ∧
    detailChunk "a.fa" "s" [] ∉
      (runPipeline (fun _ _ => .ok []) [("s", "d")] "in" ["a.fa"]).1.summaryChunks :=
  ⟨rfl, rfl, rfl, by decide⟩

/-- Claim C1 as amended: for every processed sample with at least one
non-NoHit database result, the detail stream contains, for every
configured database (including NoHit ones), the labeled section header
identifying sample and database followed by the literal raw output
verbatim; all-NoHit samples produce no detail sections. -/
theorem C1_detail_sections_for_hit_samples
    (blast : String → String → Except Unit (List Char))
    (dbs : List (String × String)) (dir : String) (listing : List String) (st' : St)
    (f : String) (results : List ResultEntry)
    (h : runPipeline blast dbs dir listing = (st', none))
    (hf : f ∈ listing) (hfa : pyEndsWith f ".fa" = true)
    (hres : processDbs blast (pyJoin dir f) dbs = .ok results)
    (hhit : results.any (fun p => p.2.1.isSome) = true) :
    ∀ p ∈ results, detailChunk f p.1 p.2.2 ∈ st'.summaryChunks :=
  runFiles_mem_summary blast dbs dir listing initSt st' h f hf hfa results hres hhit

/-- Witness for amended C1: one sample, two databases, one hit and one
NoHit; both sections, the NoHit one included, are in the detail stream. -/
theorem C1_detail_sections_for_hit_samples_witness :
    detailChunk "a.fa" "s" ['q', '\t', 'S', '\t', '9', '8', '.', '5'] ∈
      (runPipeline
        (fun _ d => if d = "d1" then .ok ['q', '\t', 'S', '\t', '9', '8', '.', '5']
          else .ok [])
        [("s", "d1"), ("t", "d2")] "in" ["a.fa"]).1.summaryChunks ∧
    detailChunk "a.fa" "t" [] ∈
      (runPipeline
        (fun _ d => if d = "d1" then .ok ['q', '\t', 'S', '\t', '9', '8', '.', '5']
          else .ok [])
        [("s", "d1"), ("t", "d2")] "in" ["a.fa"]).1.summaryChunks :=
  ⟨C1_detail_sections_for_hit_samples
      (fun _ d => if d = "d1" then .ok ['q', '\t', 'S', '\t', '9', '8', '.', '5'] else .ok [])
      [("s", "d1"), ("t", "d2")] "in" ["a.fa"] _ "a.fa"
      [("s", some (Rat.divInt 197 2), ['q', '\t', 'S', '\t', '9', '8', '.', '5']),
        ("t", (none : Option ℚ), ([] : List Char))]
      rfl (by decide) (by decide) rfl (by decide)
      ("s", some (Rat.divInt 197 2), ['q', '\t', 'S', '\t', '9', '8', '.', '5']) (by decide),
    C1_detail_sections_for_hit_samples
      (fun _ d => if d = "d1" then .ok ['q', '\t', 'S', '\t', '9', '8', '.', '5'] else .ok [])
      [("s", "d1"), ("t", "d2")] "in" ["a.fa"] _ "a.fa"
      [("s", some (Rat.divInt 197 2), ['q', '\t', 'S', '\t', '9', '8', '.', '5']),
        ("t", (none : Option ℚ), ([] : List Char))]
      rfl (by decide) (by decide) rfl (by decide)
      ("t", (none : Option ℚ), ([] : List Char)) (by decide)⟩

/-- Input refuting claims C4/C7 as stated: its first line begins with a
tab, so the code's `strip()` shifts every field one position to the left
relative to the columns of the raw first line. -/
def c4Input : List Char :=
  ['\t', '9', '\t', '8', '\t', '7', '\t', '4', '\t', '5', '\t', '6', '\t', '7', '\t', '8',
    '\t', '9', '\t', '1', '0', '\t', '1', '1', '\t', '1', '2']

/-- Counterexample to claim C4 as stated: the input's first line has 13
tab-separated fields, its column 3 is the well-formed number `8` and its
column 2 is `9`; yet `parse_blast_result` (which strips the input first)
returns identity `7` and subject `8` — not the column-3 value `8` and the
column-2 text `9` the claim requires. -/
theorem C4_parse_counterexample :
    (splitOnC '\t' (firstLine c4Input)).length = 13 ∧
    (splitOnC '\t' (firstLine c4Input)).getD 1 [] = ['9'] ∧
    (splitOnC '\t' (firstLine c4Input)).getD 2 [] = ['8'] ∧
    parseFloat? ['8'] = some (Rat.divInt 8 1) ∧
    parse_blast_result c4Input = .ok (some (Rat.divInt 7 1), some ['8']) ∧
    ((some (Rat.divInt 7 1), some ['8']) : Option ℚ × Option (List Char)) ≠
      (some (Rat.divInt 8 1), some ['9']) :=
  ⟨by decide, by decide, by decide, by decide, rfl, by decide⟩

/-- Claim C4 as amended: with "first line" read on the whitespace-stripped
input (the code strips before splitting), parsing returns the numeric
value of column 3 and the text of column 2 of that line, and appending
further rows after a newline does not change the result. -/
theorem C4_parse_first_line (s r : List Char) (q : ℚ)
    (h0 : strip s ≠ [])
    (h12 : 12 ≤ (splitOnC '\t' (firstLine (strip s))).length)
    (hq : parseFloat? ((splitOnC '\t' (firstLine (strip s))).getD 2 []) = some q) :
    parse_blast_result s =
      .ok (some q, some ((splitOnC '\t' (firstLine (strip s))).getD 1 [])) ∧
    parse_blast_result (s ++ '\n' :: r) =
      .ok (some q, some ((splitOnC '\t' (firstLine (strip s))).getD 1 [])) := by
  have hL : (splitOnC '\n' (strip s)).headI = firstLine (strip s) :=
    headI_splitOnC '\n' (strip s)
  have hlen1 : ¬ (splitOnC '\t' (firstLine (strip s))).length ≤ 2 := by omega
  constructor
  · simp only [parse_blast_result, hL]
    rw [if_neg h0, if_neg hlen1, hq]
  · have hstrip2 : strip (s ++ '\n' :: r) = rstrip (lstrip s ++ '\n' :: r) :=
      strip_append_newline r h0
    obtain ⟨w, hw⟩ := firstLine_rstrip_append (lstrip s) r
    have hFL : firstLine (strip (s ++ '\n' :: r)) = firstLine (strip s) ++ w := by
      rw [hstrip2]
      exact hw
    have hne2 : strip (s ++ '\n' :: r) ≠ [] := by
      rw [hstrip2]
      rcases rstrip_append_cases (lstrip s) r with ⟨r1, hA⟩ | hB
      · rw [hA]; simp
      · rw [hB]; exact h0
    have hcount : 11 ≤ (firstLine (strip s)).count '\t' := by
      have := length_splitOnC '\t' (firstLine (strip s))
      omega
    have hg1 : (splitOnC '\t' (firstLine (strip s) ++ w)).getD 1 [] =
        (splitOnC '\t' (firstLine (strip s))).getD 1 [] :=
      splitOnC_getD_append '\t' w _ 1 (by omega)
    have hg2 : (splitOnC '\t' (firstLine (strip s) ++ w)).getD 2 [] =
        (splitOnC '\t' (firstLine (strip s))).getD 2 [] :=
      splitOnC_getD_append '\t' w _ 2 (by omega)
    have hlen2 : ¬ (splitOnC '\t' (firstLine (strip s) ++ w)).length ≤ 2 := by
      rw [length_splitOnC, List.count_append]
      have := length_splitOnC '\t' (firstLine (strip s))
      omega
    have hL2 : (splitOnC '\n' (strip (s ++ '\n' :: r))).headI =
        firstLine (strip (s ++ '\n' :: r)) := headI_splitOnC '\n' _
    simp only [parse_blast_result, hL2, hFL]
    rw [if_neg hne2, if_neg hlen2, hg2, hq, hg1]

/-- Witness for amended C4 on a full 12-field first line followed by a
spurious second row. -/
theorem C4_parse_first_line_witness :
    parse_blast_result ("q\tS\t98.7\t4\t5\t6\t7\t8\t9\t10\t11\t12").toList =
      .ok (some (Rat.divInt 987 10),
        some ((splitOnC '\t'
          (firstLine (strip ("q\tS\t98.7\t4\t5\t6\t7\t8\t9\t10\t11\t12").toList))).getD 1 [])) ∧
    parse_blast_result
        (("q\tS\t98.7\t4\t5\t6\t7\t8\t9\t10\t11\t12").toList ++ '\n' :: ("r2\txx").toList) =
      .ok (some (Rat.divInt 987 10),
        some ((splitOnC '\t'
          (firstLine (strip ("q\tS\t98.7\t4\t5\t6\t7\t8\t9\t10\t11\t12").toList))).getD 1 [])) :=
  C4_parse_first_line ("q\tS\t98.7\t4\t5\t6\t7\t8\t9\t10\t11\t12").toList ("r2\txx").toList
    (Rat.divInt 987 10) (by decide) (by decide) (by decide)

/-- Input refuting claim C7 as stated: the raw first line's third
tab-separated field is the non-numeric `zz`, but after `strip()` the
fields shift and the code coerces `3.5` instead. -/
def c7Input : List Char := ['\t', 'a', '\t', 'z', 'z', '\t', '3', '.', '5']

/-- Counterexample to claim C7 as stated: an input whose first line's
third tab-separated field (`zz`) is not a well-formed number, on which
`parse_blast_result` nevertheless returns a hit — identity `3.5`, subject
`zz` — instead of raising a fatal error. -/
theorem C7_malformed_counterexample :
    (∃ c ∈ c7Input, pyIsSpace c = false) ∧
    (splitOnC '\t' (firstLine c7Input)).getD 2 [] = ['z', 'z'] ∧
    parseFloat? ['z', 'z'] = none ∧
    parse_blast_result c7Input = .ok (some (Rat.divInt 7 2), some ['z', 'z']) :=
  ⟨by decide, by decide, by decide, rfl⟩

/-- Claim C7 as amended: with "first line" read on the whitespace-stripped
input, a non-numeric third field makes `parse_blast_result` raise the
fatal coercion error (`ValueError`) rather than return a default or
NoHit. -/
theorem C7_malformed_identity_fatal (s t : List Char)
    (h0 : strip s ≠ [])
    (h2 : (splitOnC '\t' (firstLine (strip s)))[2]? = some t)
    (hbad : parseFloat? t = none) :
    parse_blast_result s = .error .valueError := by
  have hlen : 2 < (splitOnC '\t' (firstLine (strip s))).length := by
    by_contra hc
    push_neg at hc
    rw [List.getElem?_eq_none hc] at h2
    cases h2
  have hgetD : (splitOnC '\t' (firstLine (strip s))).getD 2 [] = t := by
    rw [List.getD_eq_getElem?_getD, h2]
    rfl
  have hL : (splitOnC '\n' (strip s)).headI = firstLine (strip s) :=
    headI_splitOnC '\n' (strip s)
  simp only [parse_blast_result, hL]
  rw [if_neg h0, if_neg (by omega : ¬ (splitOnC '\t' (firstLine (strip s))).length ≤ 2),
    hgetD, hbad]

/-- Witness for amended C7: third field `zz` of a clean four-field line. -/
theorem C7_malformed_identity_fatal_witness :
    parse_blast_result ['q', '\t', 'S', '\t', 'z', 'z', '\t', '4'] = .error .valueError :=
  C7_malformed_identity_fatal ['q', '\t', 'S', '\t', 'z', 'z', '\t', '4'] ['z', 'z']
    (by decide) (by decide) (by decide)

end Bonefish
